import Mathlib

/-!
Shallow embedding of the SSD1306 framebuffer driver (`src/myssd1306.c`,
`include/myssd1306.h`) and proofs about its drawing and transfer operations.

Modelling conventions:
* The compiled geometry is the 128x64 configuration (`SSD1306_128X64`):
  `SSD1306_W = 128`, `SSD1306_H = 64`, `SSD1306_OFFSET = 0`, `SSD1306_PSZ = 32`.
  This matches the hard-coded page range 0..7 in `ssd1306_refresh`.
* The framebuffer `uint8_t ssd1306_buffer[1024]` is a function `Buf := ℕ → ℕ`;
  a buffer is well formed (`ValidBuf`) when every byte is `< 256`, the image of
  the C type `uint8_t[]`.
* Machine integers are `ℕ`/`ℤ` with explicit `% 2^w` where wraparound can
  occur (`uint32` index arithmetic, the `uint16_t` temp in `gfx_swap`,
  the `uint8_t` cursor in `ssd1306_drawstr`).
* The I2C transport is mocked: `ssd1306_cmd` / `ssd1306_data` become entries
  of a trace (command bytes, data packets) instead of bus writes.
-/

/-- Display width in pixels (`SSD1306_W`, 128x64 configuration). -/
def SSD1306_W : ℕ := 128

/-- Display height in pixels (`SSD1306_H`, 128x64 configuration). -/
def SSD1306_H : ℕ := 64

/-- Column offset (`SSD1306_OFFSET`, 0 for the 128x64 configuration). -/
def SSD1306_OFFSET : ℕ := 0

/-- Maximum data-packet payload size (`SSD1306_PSZ`). -/
def SSD1306_PSZ : ℕ := 32

/-- `sizeof(ssd1306_buffer) = SSD1306_W * SSD1306_H / 8`. -/
def bufferSize : ℕ := SSD1306_W * SSD1306_H / 8

/-- The framebuffer `uint8_t ssd1306_buffer[]`, as a byte-valued function. -/
def Buf : Type := ℕ → ℕ

/-- Single byte store `buf[a] = v`. -/
def updByte (buf : Buf) (a v : ℕ) : Buf := fun i => if i = a then v else buf i

/-- A well-formed framebuffer: every byte fits in `uint8_t`. -/
def ValidBuf (buf : Buf) : Prop := ∀ a, buf a < 256

/-- The all-zero framebuffer (`ssd1306_setbuf(0)`). -/
def zeroBuf : Buf := fun _ => 0

/-- `int`/`uint32_t` conversion: value of an integer cast to `uint32_t`. -/
def toU32 (z : ℤ) : ℕ := (z.emod 4294967296).toNat

/-- Buffer index of the strip byte for column `x`, page `y/8`
(`addr = x + SSD1306_W*(y/8)` in `ssd1306_drawPixel`). -/
def pixelAddr (x y : ℕ) : ℕ := x + SSD1306_W * (y / 8)

/-- `ssd1306_drawPixel(x, y, color)`: clip at `x >= SSD1306_W` or
`y >= SSD1306_H`, otherwise set (`|=`) or clear (`&= ~mask`) bit `y&7` of the
strip byte.  `color` is the truthiness of the C `int color`. -/
def ssd1306_drawPixel (x y : ℕ) (color : Bool) (buf : Buf) : Buf :=
  if SSD1306_W ≤ x then buf
  else if SSD1306_H ≤ y then buf
  else
    let addr := pixelAddr x y
    if color then
      updByte buf addr (buf addr ||| (1 <<< (y % 8)))
    else
      updByte buf addr (buf addr &&& (4294967295 ^^^ (1 <<< (y % 8))))

/-- `ssd1306_xorPixel(x, y)`: same clipping, XORs bit `y&7`. -/
def ssd1306_xorPixel (x y : ℕ) (buf : Buf) : Buf :=
  if SSD1306_W ≤ x then buf
  else if SSD1306_H ≤ y then buf
  else
    let addr := pixelAddr x y
    updByte buf addr (buf addr ^^^ (1 <<< (y % 8)))

/-- `ssd1306_drawPixel` at `int` coordinates, converted to `uint32_t` at the
call boundary as C does. -/
def drawPixelZ (x y : ℤ) (color : Bool) (buf : Buf) : Buf :=
  ssd1306_drawPixel (toU32 x) (toU32 y) color buf

example : pixelAddr 5 13 = 5 + 128 := by decide
example : (ssd1306_drawPixel 3 9 true zeroBuf) (pixelAddr 3 9) = 2 := by decide
example : (ssd1306_drawPixel 200 9 true zeroBuf) 0 = 0 := by decide

/-! ## Transfer engine (`ssd1306_data`, `ssd1306_refresh`) -/

/-- `ssd1306_data(dev, data, sz)` against a mock transport: the I2C packet it
writes, a `0x40` marker byte followed by `min sz SSD1306_PSZ` buffer bytes
starting at `start` (the `sz > SSD1306_PSZ` clamp and the `memcpy`). -/
def ssd1306_dataPacket (buf : Buf) (start sz : ℕ) : List ℕ :=
  0x40 :: (List.range (min sz SSD1306_PSZ)).map (fun j => buf (start + j))

/-- The six command bytes `ssd1306_refresh` sends through `ssd1306_cmd`:
column address range, then page address range. -/
def refreshCmds : List ℕ :=
  [0x21, SSD1306_OFFSET, SSD1306_OFFSET + SSD1306_W - 1, 0x22, 0, 7]

/-- The data loop of `ssd1306_refresh`:
`for(i=0;i<sizeof(ssd1306_buffer);i+=SSD1306_PSZ) ssd1306_data(dev,&ssd1306_buffer[i],SSD1306_PSZ);`
The structural `fuel` argument only bounds the number of iterations; callers
pass enough fuel for the loop guard `i < bufferSize` to be the one that
stops the loop. -/
def refreshLoop (buf : Buf) : ℕ → ℕ → List (List ℕ)
  | 0, _ => []
  | fuel + 1, i =>
    if i < bufferSize then
      ssd1306_dataPacket buf i SSD1306_PSZ :: refreshLoop buf fuel (i + SSD1306_PSZ)
    else []

/-- `ssd1306_refresh(dev)` against a mock transport: the trace of command
bytes and the list of data packets it sends. -/
def ssd1306_refresh (buf : Buf) : List ℕ × List (List ℕ) :=
  (refreshCmds, refreshLoop buf bufferSize 0)

/-! ## Image compositor (`ssd1306_drawImage`) -/

/-- The `switch (color_mode)` body of `ssd1306_drawImage`: the new value of
the strip byte `b` under mask `vmask`, where `ip` is the truthiness of
`input_pixel = input_byte & (1 << pixel)`.  Modes outside 0..5 perform no
assignment. -/
def applyMode (mode vmask : ℕ) (ip : Bool) (b : ℕ) : ℕ :=
  match mode with
  | 0 => (b &&& (4294967295 ^^^ vmask)) ||| (if ip then vmask else 0)
  | 1 => (b &&& (4294967295 ^^^ vmask)) ||| (if ip then 0 else vmask)
  | 2 => b &&& (if ip then 0xFF else 4294967295 ^^^ vmask)
  | 3 => b ||| (if ip then vmask else 0)
  | 4 => b ||| (if ip then 0 else vmask)
  | 5 => b &&& (if ip then 4294967295 ^^^ vmask else 0xFF)
  | _ => b

/-- Inner `for (pixel = 0; pixel < 8; pixel++)` loop of `ssd1306_drawImage`
for one source byte: `xBase = x + 8*(bytes_to_draw - byte)`, breaking when
`x_absolute >= SSD1306_W`.  `x_absolute` is `uint32_t` arithmetic. -/
def imgPixelLoop (mode vmask yAbs xBase inputByte : ℕ) :
    ℕ → ℕ → Buf → Buf
  | 0, _, buf => buf
  | fuel + 1, pixel, buf =>
    if pixel < 8 then
      let xAbs := (xBase + pixel) % 4294967296
      if SSD1306_W ≤ xAbs then buf
      else
        let addr := xAbs + SSD1306_W * (yAbs / 8)
        let ip : Bool := inputByte &&& (1 <<< pixel) ≠ 0
        imgPixelLoop mode vmask yAbs xBase inputByte fuel (pixel + 1)
          (updByte buf addr (applyMode mode vmask ip (buf addr)))
    else buf

/-- Middle `for (byte = 0; byte < bytes_to_draw; byte++)` loop of
`ssd1306_drawImage` for one source row `line`; `input` is the caller-owned
`uint8_t` bitmap, read at `byte + line * bytes_to_draw` (`uint32_t` index). -/
def imgByteLoop (mode vmask yAbs x btd line : ℕ) (input : ℕ → ℕ) :
    ℕ → ℕ → Buf → Buf
  | 0, _, buf => buf
  | fuel + 1, byte, buf =>
    if byte < btd then
      let inputByte := input ((byte + line * btd) % 4294967296) % 256
      imgByteLoop mode vmask yAbs x btd line input fuel (byte + 1)
        (imgPixelLoop mode vmask yAbs (x + 8 * (btd - byte)) inputByte 8 0 buf)
    else buf

/-- Outer `for (line = 0; line < height; line++)` loop of
`ssd1306_drawImage`, breaking for good when `y_absolute >= SSD1306_H`.
`v_mask = 1 << (y_absolute & 7)`. -/
def imgLineLoop (mode x y width height : ℕ) (input : ℕ → ℕ) :
    ℕ → ℕ → Buf → Buf
  | 0, _, buf => buf
  | fuel + 1, line, buf =>
    if line < height then
      let yAbs := y + line
      if SSD1306_H ≤ yAbs then buf
      else
        imgLineLoop mode x y width height input fuel (line + 1)
          (imgByteLoop mode (1 <<< (yAbs % 8)) yAbs x (width / 8) line input
            (width / 8) 0 buf)
    else buf

/-- `ssd1306_drawImage(x, y, input, width, height, color_mode)`. -/
def ssd1306_drawImage (x y : ℕ) (input : ℕ → ℕ) (width height mode : ℕ)
    (buf : Buf) : Buf :=
  imgLineLoop mode x y width height input height 0 buf

/-- Write trace of the inner pixel loop of `ssd1306_drawImage`: the
`(x_absolute, y_absolute)` pairs whose strip byte the switch statement
updates, in execution order. -/
def tracePixelLoop (xBase yAbs : ℕ) : ℕ → ℕ → List (ℕ × ℕ)
  | 0, _ => []
  | fuel + 1, pixel =>
    if pixel < 8 then
      let xAbs := (xBase + pixel) % 4294967296
      if SSD1306_W ≤ xAbs then []
      else (xAbs, yAbs) :: tracePixelLoop xBase yAbs fuel (pixel + 1)
    else []

/-- Write trace of the byte loop of `ssd1306_drawImage` for one row. -/
def traceByteLoop (x btd yAbs : ℕ) : ℕ → ℕ → List (ℕ × ℕ)
  | 0, _ => []
  | fuel + 1, byte =>
    if byte < btd then
      tracePixelLoop (x + 8 * (btd - byte)) yAbs 8 0 ++
        traceByteLoop x btd yAbs fuel (byte + 1)
    else []

/-- Write trace of the line loop of `ssd1306_drawImage`. -/
def traceLineLoop (x y height btd : ℕ) : ℕ → ℕ → List (ℕ × ℕ)
  | 0, _ => []
  | fuel + 1, line =>
    if line < height then
      if SSD1306_H ≤ y + line then []
      else
        traceByteLoop x btd (y + line) btd 0 ++
          traceLineLoop x y height btd fuel (line + 1)
    else []

/-- The pixels `(x_absolute, y_absolute)` whose strip byte
`ssd1306_drawImage(x, y, _, width, height, _)` updates, in execution order
(independent of the bitmap contents and of the mode). -/
def drawImageTrace (x y width height : ℕ) : List (ℕ × ℕ) :=
  traceLineLoop x y height (width / 8) height 0

example :
    drawImageTrace 0 0 8 1 = (List.range 8).map (fun p => (8 + p, 0)) := by decide
example : drawImageTrace 116 0 16 1 =
    (List.range 4).map (fun p => (124 + p, 0)) := by decide

/-! ## Fast horizontal line (`ssd1306_drawFastHLine`) -/

/-- The `while (w--) ssd1306_drawPixel(x++, y, color);` loop of
`ssd1306_drawFastHLine`; `x` is `uint32_t` and wraps. -/
def hlineLoop (y : ℕ) (color : Bool) : ℕ → ℕ → Buf → Buf
  | 0, _, buf => buf
  | w + 1, x, buf =>
    hlineLoop y color w ((x + 1) % 4294967296) (ssd1306_drawPixel x y color buf)

/-- `ssd1306_drawFastHLine(x, y, w, color)`: clip the start, clamp the
width when `x + w - 1 >= SSD1306_W` in `uint32_t` arithmetic, then loop.
All parameters are `uint32_t` values (`< 2^32`). -/
def ssd1306_drawFastHLine (x y w : ℕ) (color : Bool) (buf : Buf) : Buf :=
  if SSD1306_W ≤ x ∨ SSD1306_H ≤ y then buf
  else
    let w' := if SSD1306_W ≤ (x + w + 4294967295) % 4294967296 then
        SSD1306_W - x else w
    hlineLoop y color w' x buf

/-- `ssd1306_drawFastHLine` at `int` coordinates (as called from
`ssd1306_fillCircle`), converted to `uint32_t` at the call boundary. -/
def hlineZ (x y w : ℤ) (color : Bool) (buf : Buf) : Buf :=
  ssd1306_drawFastHLine (toU32 x) (toU32 y) (toU32 w) color buf

set_option maxRecDepth 4000 in
example : (ssd1306_drawFastHLine 0 3 0 true zeroBuf) (pixelAddr 5 3) = 8 := by
  decide
example : (ssd1306_drawFastHLine 1 3 0 true zeroBuf) (pixelAddr 5 3) = 0 := by
  decide

/-! ## Bresenham line (`ssd1306_drawLine`) and the classic midpoint line -/

/-- `gfx_abs`. -/
def gfx_abs (x : ℤ) : ℤ := if x < 0 then -x else x

/-- `gfx_swap(&z0, &z1)` as a value-level pair transform: the result is the
new `(z0, z1)`.  The temporary is a `uint16_t`, so the value moved into `z1`
is truncated to 16 bits. -/
def gfx_swap (z0 z1 : ℤ) : ℤ × ℤ := (z1, z0.emod 65536)

/-- The `for (x = x0; x <= x1; x++)` loop of `ssd1306_drawLine`: plots the
point (sense-flipped when `steep`), subtracts `deltay` from the error term
and steps `y` by `ystep` when it goes negative.  The structural `fuel`
argument only bounds the iteration count; callers pass enough for the guard
`x ≤ x1` to stop the loop. -/
def lineLoop (steep : Bool) (x1 deltax deltay ystep : ℤ) (color : Bool) :
    ℕ → ℤ → ℤ → ℤ → Buf → Buf
  | 0, _, _, _, buf => buf
  | fuel + 1, x, y, error, buf =>
    if x ≤ x1 then
      let buf' := if steep then drawPixelZ y x color buf
        else drawPixelZ x y color buf
      let error' := error - deltay
      if error' < 0 then
        lineLoop steep x1 deltax deltay ystep color fuel (x + 1) (y + ystep)
          (error' + deltax) buf'
      else
        lineLoop steep x1 deltax deltay ystep color fuel (x + 1) y error' buf'
    else buf

/-- `ssd1306_drawLine(x0, y0, x1, y1, color)`: steepness test, the two
(`uint16_t`-truncating) endpoint swaps, then the Bresenham loop.  `int`
arithmetic is modelled on `ℤ`; the quantities involved stay far inside the
`int32` range for the coordinate ranges considered in the theorems below, so
no wraparound is modelled (signed overflow has no defined C semantics). -/
def ssd1306_drawLine (x0 y0 x1 y1 : ℤ) (color : Bool) (buf : Buf) : Buf :=
  let steep := gfx_abs (y1 - y0) > gfx_abs (x1 - x0)
  let (x0, y0) := if steep then gfx_swap x0 y0 else (x0, y0)
  let (x1, y1) := if steep then gfx_swap x1 y1 else (x1, y1)
  let (x0, x1, y0, y1) :=
    if x0 > x1 then
      let (x0', x1') := gfx_swap x0 x1
      let (y0', y1') := gfx_swap y0 y1
      (x0', x1', y0', y1')
    else (x0, x1, y0, y1)
  let deltax := x1 - x0
  let deltay := gfx_abs (y1 - y0)
  let error := deltax / 2
  let ystep : ℤ := if y0 < y1 then 1 else -1
  lineLoop steep x1 deltax deltay ystep color (x1 + 1 - x0).toNat x0 y0 error buf

/-- Modelled from the spec: the classic integer midpoint (Bresenham) line
algorithm of section 4.2 — steepness test swapping the x/y roles, endpoint
reordering so x runs low to high, and a running error term starting at
`deltax/2` that steps `y` by `±1` when it goes negative.  Identical to
`ssd1306_drawLine` except that its swaps exchange values exactly instead of
truncating through a `uint16_t` temporary. -/
def midpointLoop (steep : Bool) (x1 deltax deltay ystep : ℤ) (color : Bool) :
    ℕ → ℤ → ℤ → ℤ → Buf → Buf
  | 0, _, _, _, buf => buf
  | fuel + 1, x, y, error, buf =>
    if x ≤ x1 then
      let buf' := if steep then drawPixelZ y x color buf
        else drawPixelZ x y color buf
      let error' := error - deltay
      if error' < 0 then
        midpointLoop steep x1 deltax deltay ystep color fuel (x + 1) (y + ystep)
          (error' + deltax) buf'
      else
        midpointLoop steep x1 deltax deltay ystep color fuel (x + 1) y error' buf'
    else buf

/-- Modelled from the spec: the classic midpoint line draw (see
`midpointLoop`). -/
def midpointLine (x0 y0 x1 y1 : ℤ) (color : Bool) (buf : Buf) : Buf :=
  let steep := gfx_abs (y1 - y0) > gfx_abs (x1 - x0)
  let (x0, y0) := if steep then (y0, x0) else (x0, y0)
  let (x1, y1) := if steep then (y1, x1) else (x1, y1)
  let (x0, x1, y0, y1) :=
    if x0 > x1 then (x1, x0, y1, y0) else (x0, x1, y0, y1)
  let deltax := x1 - x0
  let deltay := gfx_abs (y1 - y0)
  let error := deltax / 2
  let ystep : ℤ := if y0 < y1 then 1 else -1
  midpointLoop steep x1 deltax deltay ystep color (x1 + 1 - x0).toNat x0 y0
    error buf

example :
    (ssd1306_drawLine 0 0 3 0 true zeroBuf) 2 = 1 ∧
      (midpointLine 0 0 3 0 true zeroBuf) 2 = 1 := by decide

/-! ## Midpoint circles (`ssd1306_drawCircle`, `ssd1306_fillCircle`) -/

/-- Loop state of the circle routines: `(x_pos, y_pos, err)`. -/
structure CircleState where
  x : ℤ
  y : ℤ
  e : ℤ
deriving DecidableEq

/-- One pass of the error-update half of the circle do-while body:
`e2 = err; if (e2 <= y_pos) { err += ++y_pos*2+1; if (-x_pos == y_pos && e2 <= x_pos) e2 = 0; } if (e2 > x_pos) { err += ++x_pos*2+1; }`. -/
def circleStep (s : CircleState) : CircleState :=
  let e2 := s.e
  let y' := if e2 ≤ s.y then s.y + 1 else s.y
  let e' := if e2 ≤ s.y then s.e + y' * 2 + 1 else s.e
  let e2' := if e2 ≤ s.y ∧ -s.x = y' ∧ e2 ≤ s.x then 0 else e2
  let x' := if e2' > s.x then s.x + 1 else s.x
  let e'' := if e2' > s.x then e' + x' * 2 + 1 else e'
  ⟨x', y', e''⟩

/-- The four symmetric `ssd1306_drawPixel` calls at the top of the circle
do-while body. -/
def circlePlot4 (cx cy : ℤ) (color : Bool) (s : CircleState) (buf : Buf) : Buf :=
  drawPixelZ (cx - s.x) (cy - s.y) color
    (drawPixelZ (cx + s.x) (cy - s.y) color
      (drawPixelZ (cx + s.x) (cy + s.y) color
        (drawPixelZ (cx - s.x) (cy + s.y) color buf)))

/-- The do-while loop of `ssd1306_drawCircle`, with fuel: `none` means the
fuel ran out before `x_pos` left `(-∞, 0]`. -/
def circleLoop (cx cy : ℤ) (color : Bool) : ℕ → CircleState → Buf → Option Buf
  | 0, _, _ => none
  | fuel + 1, s, buf =>
    let buf' := circlePlot4 cx cy color s buf
    let s' := circleStep s
    if s'.x ≤ 0 then circleLoop cx cy color fuel s' buf' else some buf'

/-- `ssd1306_drawCircle(x, y, radius, color)` with fuel for the do-while
loop; initial state `x_pos = -radius`, `y_pos = 0`, `err = 2 - 2*radius`. -/
def ssd1306_drawCircle (cx cy radius : ℤ) (color : Bool) (fuel : ℕ)
    (buf : Buf) : Option Buf :=
  circleLoop cx cy color fuel ⟨-radius, 0, 2 - 2 * radius⟩ buf

/-- Body additions of `ssd1306_fillCircle`: the four symmetric pixels plus
the two horizontal spans
`ssd1306_drawFastHLine(x + x_pos, y ± y_pos, 2*(-x_pos) + 1, color)`. -/
def fillCirclePlot (cx cy : ℤ) (color : Bool) (s : CircleState) (buf : Buf) :
    Buf :=
  hlineZ (cx + s.x) (cy - s.y) (2 * (-s.x) + 1) color
    (hlineZ (cx + s.x) (cy + s.y) (2 * (-s.x) + 1) color
      (circlePlot4 cx cy color s buf))

/-- The do-while loop of `ssd1306_fillCircle`, with fuel. -/
def fillCircleLoop (cx cy : ℤ) (color : Bool) :
    ℕ → CircleState → Buf → Option Buf
  | 0, _, _ => none
  | fuel + 1, s, buf =>
    let buf' := fillCirclePlot cx cy color s buf
    let s' := circleStep s
    if s'.x ≤ 0 then fillCircleLoop cx cy color fuel s' buf' else some buf'

/-- `ssd1306_fillCircle(x, y, radius, color)` with fuel. -/
def ssd1306_fillCircle (cx cy radius : ℤ) (color : Bool) (fuel : ℕ)
    (buf : Buf) : Option Buf :=
  fillCircleLoop cx cy color fuel ⟨-radius, 0, 2 - 2 * radius⟩ buf

example :
    (ssd1306_drawCircle 10 10 0 true 1 zeroBuf).map (fun b => b (pixelAddr 10 10)) =
      some ((drawPixelZ 10 10 true zeroBuf) (pixelAddr 10 10)) := by decide

/-! ## Glyph renderer (`ssd1306_drawchar`, `ssd1306_drawstr`) -/

/-- Inner `for(j=0;j<8;j++)` loop of `ssd1306_drawchar` for one glyph row:
`d` is the remaining row byte (`uint8_t`, shifted left each step), a set high
bit draws `color`, a clear one draws the inverse (`(~color)&1`). -/
def drawcharRowLoop (x yAbs : ℕ) (color : Bool) : ℕ → ℕ → ℕ → Buf → Buf
  | 0, _, _, buf => buf
  | fuel + 1, j, d, buf =>
    if j < 8 then
      let col := if d &&& 0x80 ≠ 0 then color else !color
      drawcharRowLoop x yAbs color fuel (j + 1) ((d <<< 1) % 256)
        (ssd1306_drawPixel (x + j) yAbs col buf)
    else buf

/-- Outer `for(i=0;i<8;i++)` loop of `ssd1306_drawchar` over the glyph rows;
`font` models the external `fontdata` table (modelled from the spec: a fixed
read-only 8×8 font, 8 consecutive bytes per glyph, one per row, MSB first;
the table itself, `font_8x8.h`, is not part of the sources). -/
def drawcharRows (font : ℕ → ℕ) (x y chr : ℕ) (color : Bool) :
    ℕ → ℕ → Buf → Buf
  | 0, _, buf => buf
  | fuel + 1, i, buf =>
    if i < 8 then
      drawcharRows font x y chr color fuel (i + 1)
        (drawcharRowLoop x (y + i) color 8 0 (font ((chr <<< 3) + i) % 256) buf)
    else buf

/-- `ssd1306_drawchar(x, y, chr, color)` over a font table `font`. -/
def ssd1306_drawchar (font : ℕ → ℕ) (x y chr : ℕ) (color : Bool) (buf : Buf) :
    Buf :=
  drawcharRows font x y chr color 8 0 buf

/-- `ssd1306_drawstr(x, y, str, color)`: draw characters until the
terminating NUL, advancing the `uint8_t` cursor by 8 and breaking once
`x > 120`.  The string is a list of character codes (the NUL check of
`while((c=*str++))` is retained). -/
def ssd1306_drawstr (font : ℕ → ℕ) : ℕ → ℕ → List ℕ → Bool → Buf → Buf
  | _, _, [], _, buf => buf
  | x, y, c :: rest, color, buf =>
    if c = 0 then buf
    else
      let buf' := ssd1306_drawchar font x y c color buf
      let x' := (x + 8) % 256
      if x' > 120 then buf' else ssd1306_drawstr font x' y rest color buf'

/-- The `(x, chr)` arguments `ssd1306_drawstr` passes to `ssd1306_drawchar`,
in order (independent of the font, the colour and the buffer). -/
def drawstrCalls : ℕ → List ℕ → List (ℕ × ℕ)
  | _, [] => []
  | x, c :: rest =>
    if c = 0 then []
    else
      (x, c) :: (if (x + 8) % 256 > 120 then [] else drawstrCalls ((x + 8) % 256) rest)

/-- Character codes of `"HELLO"`. -/
def helloStr : List ℕ := [72, 69, 76, 76, 79]

example : drawstrCalls 120 helloStr = [(120, 72)] := by decide
example : drawstrCalls 0 helloStr =
    [(0, 72), (8, 69), (16, 76), (24, 76), (32, 79)] := by decide
example : drawstrCalls 248 [65, 66, 67] = [(248, 65), (0, 66), (8, 67)] := by
  decide

/-! ## Helper lemmas: bytes and bits -/

lemma updByte_apply (buf : Buf) (a v i : ℕ) :
    updByte buf a v i = if i = a then v else buf i := rfl

lemma shiftLeft_one (i : ℕ) : 1 <<< i = 2 ^ i := by
  simp [Nat.shiftLeft_eq]

lemma testBit_set (b i k : ℕ) :
    (b ||| (1 <<< i)).testBit k = (b.testBit k || decide (i = k)) := by
  simp [Nat.testBit_or, shiftLeft_one, Nat.testBit_two_pow]

lemma testBit_clear (b i k : ℕ) (hb : b < 4294967296) :
    (b &&& (4294967295 ^^^ (1 <<< i))).testBit k =
      (b.testBit k && !decide (i = k)) := by
  have h32 : (4294967295 : ℕ) = 2 ^ 32 - 1 := by norm_num
  rw [Nat.testBit_and, Nat.testBit_xor, h32, shiftLeft_one,
    Nat.testBit_two_pow_sub_one, Nat.testBit_two_pow]
  by_cases hk : k < 32
  · simp [hk]
  · have hbk : b.testBit k = false := by
      refine Nat.testBit_lt_two_pow (lt_of_lt_of_le hb ?_)
      exact Nat.pow_le_pow_right (show 0 < 2 by norm_num) (le_of_not_lt hk)
    simp [hbk]

lemma testBit_toggle (b i k : ℕ) :
    (b ^^^ (1 <<< i)).testBit k = ((b.testBit k).xor (decide (i = k))) := by
  simp [Nat.testBit_xor, shiftLeft_one, Nat.testBit_two_pow]

lemma testBit_and255 (b k : ℕ) (hk : k < 8) :
    (b &&& 0xFF).testBit k = b.testBit k := by
  have h8 : (0xFF : ℕ) = 2 ^ 8 - 1 := by norm_num
  rw [Nat.testBit_and, h8, Nat.testBit_two_pow_sub_one]
  simp [hk]

lemma byte_set_lt (b i : ℕ) (hb : b < 256) (hi : i < 8) :
    b ||| (1 <<< i) < 256 := by
  have : (1 <<< i) < 256 := by
    rw [shiftLeft_one]
    calc 2 ^ i < 2 ^ 8 := Nat.pow_lt_pow_right (by norm_num) hi
    _ = 256 := by norm_num
  exact Nat.or_lt_two_pow (n := 8) hb this

/-! ## Claim C4 -/

/-- C4: for every `x < W` and `y < H` and color `c`, `ssd1306_drawPixel(x,y,c)`
makes bit `y&7` of framebuffer byte `x + W*(y/8)` equal to `c` while changing
no other bit, and `ssd1306_xorPixel(x,y)` flips exactly that bit and no other;
for `x ≥ W` or `y ≥ H` both operations leave the framebuffer unchanged. -/
theorem claim_C4 :
    (∀ x y (c : Bool) (buf : Buf), ValidBuf buf → x < SSD1306_W → y < SSD1306_H →
      ((ssd1306_drawPixel x y c buf (pixelAddr x y)).testBit (y % 8) = c ∧
       (∀ a, a ≠ pixelAddr x y → ssd1306_drawPixel x y c buf a = buf a) ∧
       (∀ k, k ≠ y % 8 →
         (ssd1306_drawPixel x y c buf (pixelAddr x y)).testBit k =
           (buf (pixelAddr x y)).testBit k)) ∧
      ((ssd1306_xorPixel x y buf (pixelAddr x y)).testBit (y % 8) =
         !(buf (pixelAddr x y)).testBit (y % 8) ∧
       (∀ a, a ≠ pixelAddr x y → ssd1306_xorPixel x y buf a = buf a) ∧
       (∀ k, k ≠ y % 8 →
         (ssd1306_xorPixel x y buf (pixelAddr x y)).testBit k =
           (buf (pixelAddr x y)).testBit k))) ∧
    (∀ x y (c : Bool) (buf : Buf), SSD1306_W ≤ x ∨ SSD1306_H ≤ y →
      ssd1306_drawPixel x y c buf = buf ∧ ssd1306_xorPixel x y buf = buf) := by
  constructor
  · intro x y c buf hbuf hx hy
    have hgx : ¬ SSD1306_W ≤ x := not_le.mpr hx
    have hgy : ¬ SSD1306_H ≤ y := not_le.mpr hy
    have hb : buf (pixelAddr x y) < 4294967296 :=
      lt_trans (hbuf (pixelAddr x y)) (by norm_num)
    refine ⟨⟨?_, ?_, ?_⟩, ?_, ?_, ?_⟩
    · cases c with
      | false =>
        simp only [ssd1306_drawPixel, hgx, hgy, if_false, Bool.false_eq_true,
          updByte_apply, eq_self_iff_true, if_true]
        rw [testBit_clear _ _ _ hb]
        simp
      | true =>
        simp only [ssd1306_drawPixel, hgx, hgy, if_false, if_true,
          updByte_apply, eq_self_iff_true]
        rw [testBit_set]
        simp
    · intro a ha
      cases c <;>
        simp only [ssd1306_drawPixel, hgx, hgy, if_false, if_true,
          Bool.false_eq_true, updByte_apply, if_neg ha]
    · intro k hk
      have hk' : ¬ (y % 8 = k) := fun h => hk h.symm
      cases c with
      | false =>
        simp only [ssd1306_drawPixel, hgx, hgy, if_false, Bool.false_eq_true,
          updByte_apply, eq_self_iff_true, if_true]
        rw [testBit_clear _ _ _ hb]
        simp [hk']
      | true =>
        simp only [ssd1306_drawPixel, hgx, hgy, if_false, if_true,
          updByte_apply, eq_self_iff_true]
        rw [testBit_set]
        simp [hk']
    · simp only [ssd1306_xorPixel, hgx, hgy, if_false, updByte_apply,
        eq_self_iff_true, if_true]
      rw [testBit_toggle]
      simp
    · intro a ha
      simp only [ssd1306_xorPixel, hgx, hgy, if_false, updByte_apply,
        if_neg ha]
    · intro k hk
      have hk' : ¬ (y % 8 = k) := fun h => hk h.symm
      simp only [ssd1306_xorPixel, hgx, hgy, if_false, updByte_apply,
        eq_self_iff_true, if_true]
      rw [testBit_toggle]
      simp [hk']
  · intro x y c buf h
    rcases h with hx | hy
    · constructor <;> simp [ssd1306_drawPixel, ssd1306_xorPixel, hx]
    · constructor <;> simp [ssd1306_drawPixel, ssd1306_xorPixel, hy]

/-- Witness for C4 at `x = 5`, `y = 9` on the zero buffer. -/
theorem claim_C4_witness :
    (ssd1306_drawPixel 5 9 true zeroBuf (pixelAddr 5 9)).testBit (9 % 8) = true ∧
      ssd1306_drawPixel 200 9 true zeroBuf = zeroBuf :=
  ⟨((claim_C4.1 5 9 true zeroBuf (fun _ => Nat.zero_lt_succ 255) (by decide)
      (by decide)).1).1,
    (claim_C4.2 200 9 true zeroBuf (Or.inl (by decide))).1⟩

/-! ## Helper lemmas: trace bounds -/

lemma tracePixelLoop_bounds {xBase yAbs : ℕ} :
    ∀ {fuel p0 cx cy}, (cx, cy) ∈ tracePixelLoop xBase yAbs fuel p0 →
      cx < SSD1306_W ∧ cy = yAbs := by
  intro fuel
  induction fuel with
  | zero => intro p0 cx cy h; simp [tracePixelLoop] at h
  | succ n ih =>
    intro p0 cx cy h
    simp only [tracePixelLoop] at h
    by_cases h8 : p0 < 8
    · simp only [h8, if_true] at h
      by_cases hw : SSD1306_W ≤ (xBase + p0) % 4294967296
      · simp [hw] at h
      · simp only [hw, if_false, List.mem_cons] at h
        rcases h with h | h
        · cases h
          exact ⟨not_le.mp hw, rfl⟩
        · exact ih h
    · simp [h8] at h

lemma traceByteLoop_bounds {x btd yAbs : ℕ} :
    ∀ {fuel b0 cx cy}, (cx, cy) ∈ traceByteLoop x btd yAbs fuel b0 →
      cx < SSD1306_W ∧ cy = yAbs := by
  intro fuel
  induction fuel with
  | zero => intro b0 cx cy h; simp [traceByteLoop] at h
  | succ n ih =>
    intro b0 cx cy h
    simp only [traceByteLoop] at h
    by_cases hb : b0 < btd
    · simp only [hb, if_true, List.mem_append] at h
      rcases h with h | h
      · exact tracePixelLoop_bounds h
      · exact ih h
    · simp [hb] at h

lemma traceLineLoop_bounds {x y height btd : ℕ} :
    ∀ {fuel l0 cx cy}, (cx, cy) ∈ traceLineLoop x y height btd fuel l0 →
      cx < SSD1306_W ∧ cy < SSD1306_H := by
  intro fuel
  induction fuel with
  | zero => intro l0 cx cy h; simp [traceLineLoop] at h
  | succ n ih =>
    intro l0 cx cy h
    simp only [traceLineLoop] at h
    by_cases hl : l0 < height
    · simp only [hl, if_true] at h
      by_cases hh : SSD1306_H ≤ y + l0
      · simp [hh] at h
      · simp only [hh, if_false, List.mem_append] at h
        rcases h with h | h
        · obtain ⟨hcx, hcy⟩ := traceByteLoop_bounds h
          exact ⟨hcx, hcy ▸ not_le.mp hh⟩
        · exact ih h
    · simp [hl] at h

/-- In-bounds strip-byte address for in-range pixels, for any geometry with
page-aligned height. -/
lemma stripAddr_lt (W H x y : ℕ) (hx : x < W) (hy : y < H) (hH : 8 ∣ H) :
    x + W * (y / 8) < W * H / 8 := by
  obtain ⟨m, rfl⟩ := hH
  have hm : y / 8 < m := Nat.div_lt_of_lt_mul (by omega)
  have h1 : W * (8 * m) / 8 = W * m := by
    rw [show W * (8 * m) = W * m * 8 by ring, Nat.mul_div_cancel _ (by norm_num)]
  calc x + W * (y / 8) < W + W * (y / 8) := by omega
  _ = W * (y / 8 + 1) := by ring
  _ ≤ W * m := Nat.mul_le_mul_left _ (by omega)
  _ = W * (8 * m) / 8 := h1.symm

/-! ## Claim C10 -/

/-- C10: every framebuffer write of `ssd1306_drawPixel`, `ssd1306_xorPixel`
and `ssd1306_drawImage` is at an index `< W*H/8`: under the guards `x < W`,
`y < H` the address `x + W*(y/8)` is in bounds (for any geometry whose height
is a multiple of 8), and every pixel `ssd1306_drawImage` touches has such
coordinates. -/
theorem claim_C10 :
    (∀ x y, x < SSD1306_W → y < SSD1306_H → pixelAddr x y < bufferSize) ∧
    (∀ x y width height cx cy, (cx, cy) ∈ drawImageTrace x y width height →
      pixelAddr cx cy < bufferSize) ∧
    (∀ W H x y, x < W → y < H → 8 ∣ H → x + W * (y / 8) < W * H / 8) := by
  have base : ∀ x y, x < SSD1306_W → y < SSD1306_H → pixelAddr x y < bufferSize := by
    intro x y hx hy
    exact stripAddr_lt SSD1306_W SSD1306_H x y hx hy (by norm_num [SSD1306_H])
  refine ⟨base, ?_, fun W H x y hx hy hH => stripAddr_lt W H x y hx hy hH⟩
  intro x y width height cx cy h
  obtain ⟨hcx, hcy⟩ := traceLineLoop_bounds h
  exact base cx cy hcx hcy

/-- Witness for C10 at concrete in-range inputs. -/
theorem claim_C10_witness :
    pixelAddr 127 63 < bufferSize ∧ pixelAddr 9 0 < bufferSize :=
  ⟨claim_C10.1 127 63 (by decide) (by decide),
    claim_C10.2.1 1 0 8 1 9 0 (by decide)⟩

/-! ## Helper lemmas: trace membership characterization -/

lemma tracePixelLoop_mem {xBase yAbs : ℕ} (hnw : xBase + 8 ≤ 4294967296) :
    ∀ {fuel p0 cx cy}, 8 ≤ p0 + fuel →
      ((cx, cy) ∈ tracePixelLoop xBase yAbs fuel p0 ↔
        cy = yAbs ∧ ∃ p, p0 ≤ p ∧ p < 8 ∧ cx = xBase + p ∧
          xBase + p < SSD1306_W) := by
  intro fuel
  induction fuel with
  | zero =>
    intro p0 cx cy hf
    simp only [tracePixelLoop, List.not_mem_nil, false_iff, not_and]
    rintro _ ⟨p, hp1, hp2, _⟩
    omega
  | succ n ih =>
    intro p0 cx cy hf
    simp only [tracePixelLoop]
    by_cases h8 : p0 < 8
    · have hmod : (xBase + p0) % 4294967296 = xBase + p0 :=
        Nat.mod_eq_of_lt (by omega)
      simp only [h8, if_true, hmod]
      by_cases hw : SSD1306_W ≤ xBase + p0
      · simp only [hw, if_true, List.not_mem_nil, false_iff, not_and]
        rintro _ ⟨p, hp1, hp2, _, hlt⟩
        have : xBase + p0 ≤ xBase + p := by omega
        omega
      · simp only [hw, if_false, List.mem_cons, ih (by omega : 8 ≤ (p0 + 1) + n)]
        constructor
        · rintro (heq | ⟨hcy, p, hp1, hp2, hcx, hlt⟩)
          · rw [Prod.mk.injEq] at heq
            exact ⟨heq.2, p0, le_refl _, h8, heq.1, not_le.mp hw⟩
          · exact ⟨hcy, p, by omega, hp2, hcx, hlt⟩
        · rintro ⟨hcy, p, hp1, hp2, hcx, hlt⟩
          by_cases hpp : p = p0
          · subst hpp
            exact Or.inl (by rw [Prod.mk.injEq]; exact ⟨hcx, hcy⟩)
          · exact Or.inr ⟨hcy, p, by omega, hp2, hcx, hlt⟩
    · simp only [h8, if_false, List.not_mem_nil, false_iff, not_and]
      rintro _ ⟨p, hp1, hp2, _⟩
      omega

lemma traceByteLoop_mem {x btd yAbs : ℕ} (hnw : x + 8 * btd + 8 ≤ 4294967296) :
    ∀ {fuel b0 cx cy}, btd ≤ b0 + fuel →
      ((cx, cy) ∈ traceByteLoop x btd yAbs fuel b0 ↔
        cy = yAbs ∧ ∃ b p, b0 ≤ b ∧ b < btd ∧ p < 8 ∧
          cx = x + 8 * (btd - b) + p ∧ cx < SSD1306_W) := by
  intro fuel
  induction fuel with
  | zero =>
    intro b0 cx cy hf
    simp only [traceByteLoop, List.not_mem_nil, false_iff, not_and]
    rintro _ ⟨b, p, hb1, hb2, _⟩
    omega
  | succ n ih =>
    intro b0 cx cy hf
    simp only [traceByteLoop]
    by_cases hb : b0 < btd
    · have hnw' : x + 8 * (btd - b0) + 8 ≤ 4294967296 := by omega
      simp only [hb, if_true, List.mem_append,
        tracePixelLoop_mem hnw' (by omega : 8 ≤ 0 + 8),
        ih (by omega : btd ≤ (b0 + 1) + n)]
      constructor
      · rintro (⟨hcy, p, _, hp2, hcx, hlt⟩ | ⟨hcy, b, p, hb1, hb2, hp, hcx, hlt⟩)
        · exact ⟨hcy, b0, p, le_refl _, hb, hp2, hcx, by omega⟩
        · exact ⟨hcy, b, p, by omega, hb2, hp, hcx, hlt⟩
      · rintro ⟨hcy, b, p, hb1, hb2, hp, hcx, hlt⟩
        by_cases hbb : b = b0
        · subst hbb
          exact Or.inl ⟨hcy, p, Nat.zero_le _, hp, hcx, by omega⟩
        · exact Or.inr ⟨hcy, b, p, by omega, hb2, hp, hcx, hlt⟩
    · simp only [hb, if_false, List.not_mem_nil, false_iff, not_and]
      rintro _ ⟨b, p, hb1, hb2, _⟩
      omega

lemma traceLineLoop_mem {x y height btd : ℕ}
    (hnw : x + 8 * btd + 8 ≤ 4294967296) :
    ∀ {fuel l0 cx cy}, height ≤ l0 + fuel →
      ((cx, cy) ∈ traceLineLoop x y height btd fuel l0 ↔
        ∃ line, l0 ≤ line ∧ line < height ∧ cy = y + line ∧
          y + line < SSD1306_H ∧ ∃ b p, b < btd ∧ p < 8 ∧
            cx = x + 8 * (btd - b) + p ∧ cx < SSD1306_W) := by
  intro fuel
  induction fuel with
  | zero =>
    intro l0 cx cy hf
    simp only [traceLineLoop, List.not_mem_nil, false_iff, not_exists]
    rintro line ⟨hl1, hl2, _⟩
    omega
  | succ n ih =>
    intro l0 cx cy hf
    simp only [traceLineLoop]
    by_cases hl : l0 < height
    · simp only [hl, if_true]
      by_cases hh : SSD1306_H ≤ y + l0
      · simp only [hh, if_true, List.not_mem_nil, false_iff, not_exists]
        rintro line ⟨hl1, hl2, _, hlt, _⟩
        omega
      · simp only [hh, if_false, List.mem_append,
          traceByteLoop_mem hnw (by omega : btd ≤ 0 + btd),
          ih (by omega : height ≤ (l0 + 1) + n)]
        constructor
        · rintro (⟨hcy, b, p, _, hb2, hp, hcx, hlt⟩ |
            ⟨line, hl1, hl2, hcy, hyH, b, p, hb2, hp, hcx, hlt⟩)
          · exact ⟨l0, le_refl _, hl, hcy, not_le.mp hh, b, p, hb2, hp, hcx, hlt⟩
          · exact ⟨line, by omega, hl2, hcy, hyH, b, p, hb2, hp, hcx, hlt⟩
        · rintro ⟨line, hl1, hl2, hcy, hyH, b, p, hb2, hp, hcx, hlt⟩
          by_cases hll : line = l0
          · subst hll
            exact Or.inl ⟨hcy, b, p, Nat.zero_le _, hb2, hp, hcx, hlt⟩
          · exact Or.inr ⟨line, by omega, hl2, hcy, hyH, b, p, hb2, hp, hcx, hlt⟩
    · simp only [hl, if_false, List.not_mem_nil, false_iff, not_exists]
      rintro line ⟨hl1, hl2, _⟩
      omega

/-- Membership in the write trace of `ssd1306_drawImage`, for calls with no
`uint32` wraparound in the column computation. -/
lemma drawImageTrace_mem {x y width height cx cy : ℕ}
    (hnw : x + width + 8 ≤ 4294967296) :
    (cx, cy) ∈ drawImageTrace x y width height ↔
      ∃ line, line < height ∧ cy = y + line ∧ cy < SSD1306_H ∧
        ∃ b p, b < width / 8 ∧ p < 8 ∧
          cx = x + 8 * (width / 8 - b) + p ∧ cx < SSD1306_W := by
  have hdm : width / 8 * 8 ≤ width := Nat.div_mul_le_self width 8
  have hnw' : x + 8 * (width / 8) + 8 ≤ 4294967296 := by omega
  rw [drawImageTrace, traceLineLoop_mem hnw' (by omega : height ≤ 0 + height)]
  constructor
  · rintro ⟨line, _, hl2, hcy, hyH, b, p, hb, hp, hcx, hlt⟩
    exact ⟨line, hl2, hcy, hcy ▸ hyH, b, p, hb, hp, hcx, hlt⟩
  · rintro ⟨line, hl2, hcy, hyH, b, p, hb, hp, hcx, hlt⟩
    exact ⟨line, Nat.zero_le _, hl2, hcy, hcy ▸ hyH, b, p, hb, hp, hcx, hlt⟩

/-! ## Claim C3 -/

/-- C3: in `ssd1306_drawImage`, the pixels touched on each row are exactly
those at columns `x + 8*(bytes_to_draw - byte) + pixel` that lie left of `W`
(so a byte-group whose pixel reaches `W` is truncated there, never wrapped),
and destination x strictly increases as the byte index decreases: every
column of a later byte-group lies left of every column of an earlier one, so
the rightmost source byte-group is drawn leftmost relative to `x`. -/
theorem claim_C3 :
    ∀ x y width height cx cy, x + width + 8 ≤ 4294967296 →
      (((cx, cy) ∈ drawImageTrace x y width height ↔
        ∃ line, line < height ∧ cy = y + line ∧ cy < SSD1306_H ∧
          ∃ b p, b < width / 8 ∧ p < 8 ∧
            cx = x + 8 * (width / 8 - b) + p ∧ cx < SSD1306_W) ∧
      (∀ b1 b2 p1 p2, b1 < b2 → b2 < width / 8 → p1 < 8 → p2 < 8 →
        x + 8 * (width / 8 - b2) + p2 < x + 8 * (width / 8 - b1) + p1)) := by
  intro x y width height cx cy hnw
  refine ⟨drawImageTrace_mem hnw, ?_⟩
  intro b1 b2 p1 p2 h12 hb2 hp1 hp2
  have h1 : width / 8 - b2 + 1 ≤ width / 8 - b1 := by omega
  omega

/-- Witness for C3: on a one-row 16-wide blit at x = 0, pixel (9, 0) is
touched (second byte-group, pixel 1) and byte-group 1 lies left of
byte-group 0. -/
theorem claim_C3_witness :
    ((9, 0) ∈ drawImageTrace 0 0 16 1) ∧
      (0 + 8 * (16 / 8 - 1) + 7 < 0 + 8 * (16 / 8 - 0) + 0) :=
  ⟨((claim_C3 0 0 16 1 9 0 (by decide)).1).mpr
      ⟨0, by decide, by decide, by decide, 1, 1, by decide, by decide,
        by decide, by decide⟩,
    (claim_C3 0 0 16 1 9 0 (by decide)).2 0 1 0 7 (by decide) (by decide)
      (by decide) (by decide)⟩

/-! ## Claim C8 -/

/-- C8: a call of `ssd1306_drawImage` with `width ≥ 8` never touches a
framebuffer column in `x .. x+7`: every touched column is `≥ x + 8` (the
column is `x + 8*(bytes_to_draw - byte) + pixel` with `byte < bytes_to_draw`),
and when a row is in range and `x + 8 < W` the column `x + 8` is touched. -/
theorem claim_C8 :
    ∀ x y width height cx cy, 8 ≤ width → x + width + 8 ≤ 4294967296 →
      (((cx, cy) ∈ drawImageTrace x y width height → x + 8 ≤ cx) ∧
       (∀ j, j < 8 → (x + j, cy) ∉ drawImageTrace x y width height) ∧
       (y < SSD1306_H → 1 ≤ height → x + 8 < SSD1306_W →
         (x + 8, y) ∈ drawImageTrace x y width height)) := by
  intro x y width height cx cy hw hnw
  have hbtd : 1 ≤ width / 8 := (Nat.one_le_div_iff (by norm_num)).mpr hw
  have hmain : ∀ cx' cy', (cx', cy') ∈ drawImageTrace x y width height →
      x + 8 ≤ cx' := by
    intro cx' cy' h
    obtain ⟨line, _, _, _, b, p, hb, _, hcx, _⟩ := (drawImageTrace_mem hnw).mp h
    have : 1 ≤ width / 8 - b := by omega
    omega
  refine ⟨hmain cx cy, ?_, ?_⟩
  · intro j hj hmem
    have := hmain (x + j) cy hmem
    omega
  · intro hy hh hxw
    refine (drawImageTrace_mem hnw).mpr
      ⟨0, hh, by omega, by omega, width / 8 - 1, 0, by omega, by norm_num,
        by omega, hxw⟩

/-- Witness for C8: blitting 8x1 at x = 3 touches no column in 3..10 below
column 11, and touches column 11 = 3 + 8. -/
theorem claim_C8_witness :
    ((3 + 0, 0) ∉ drawImageTrace 3 0 8 1) ∧
      (3 + 8, 0) ∈ drawImageTrace 3 0 8 1 :=
  ⟨(claim_C8 3 0 8 1 5 0 (by decide) (by decide)).2.1 0 (by decide),
    (claim_C8 3 0 8 1 5 0 (by decide) (by decide)).2.2 (by decide) (by decide)
      (by decide)⟩

/-! ## Helper lemmas: row clipping of `ssd1306_drawImage` -/

lemma imgLineLoop_clip {mode x y width height : ℕ} {input : ℕ → ℕ} :
    ∀ {fuel1 fuel2 : ℕ} {line : ℕ} {buf : Buf}, height ≤ line + fuel1 →
      min height (SSD1306_H - y) ≤ line + fuel2 →
      imgLineLoop mode x y width height input fuel1 line buf =
        imgLineLoop mode x y width (min height (SSD1306_H - y)) input fuel2
          line buf := by
  intro fuel1
  induction fuel1 with
  | zero =>
    intro fuel2 line buf hf1 hf2
    have hl : ¬ line < height := by omega
    have hl' : ¬ line < min height (SSD1306_H - y) := by omega
    cases fuel2 with
    | zero => simp [imgLineLoop]
    | succ m => simp [imgLineLoop, hl, hl']
  | succ n ih =>
    intro fuel2 line buf hf1 hf2
    by_cases hl : line < height
    · by_cases hh : SSD1306_H ≤ y + line
      · have hl' : ¬ line < min height (SSD1306_H - y) := by omega
        cases fuel2 with
        | zero => simp [imgLineLoop, hl, hh]
        | succ m => simp [imgLineLoop, hl, hh, hl']
      · have hlm : line < min height (SSD1306_H - y) := by omega
        cases fuel2 with
        | zero => omega
        | succ m =>
          simp only [imgLineLoop, hl, if_true, hh, if_false, hlm,
            not_le.mpr (not_le.mp hh), ite_false, ite_true]
          exact ih (by omega) (by omega)
    · have hl' : ¬ line < min height (SSD1306_H - y) := by omega
      cases fuel2 with
      | zero => simp [imgLineLoop, hl]
      | succ m => simp [imgLineLoop, hl, hl']

/-! ## Claim C2 -/

/-- C2: the six compositing modes of `ssd1306_drawImage` transform the
destination bit exactly as the mode table states — mode 0 writes the source
bit, mode 1 its inverse, mode 2 clears where the source bit is 0 and keeps
the destination where it is 1, mode 3 sets where the source bit is 1, mode 4
sets where it is 0, mode 5 clears where it is 1, each leaving every other bit
of the strip byte unchanged — rows that would land at or beyond `H` are
clipped, and every touched pixel is in range. -/
theorem claim_C2 :
    (∀ k, k < 8 → ∀ b, b < 256 → ∀ s : Bool,
      (applyMode 0 (1 <<< k) s b).testBit k = s ∧
      (applyMode 1 (1 <<< k) s b).testBit k = !s ∧
      (applyMode 2 (1 <<< k) s b).testBit k = (s && b.testBit k) ∧
      (applyMode 3 (1 <<< k) s b).testBit k = (s || b.testBit k) ∧
      (applyMode 4 (1 <<< k) s b).testBit k = (!s || b.testBit k) ∧
      (applyMode 5 (1 <<< k) s b).testBit k = (!s && b.testBit k) ∧
      (∀ mode j, mode < 6 → j < 8 → j ≠ k →
        (applyMode mode (1 <<< k) s b).testBit j = b.testBit j)) ∧
    (∀ x y input width height mode buf,
      ssd1306_drawImage x y input width height mode buf =
        ssd1306_drawImage x y input width (min height (SSD1306_H - y)) mode
          buf) ∧
    (∀ x y width height cx cy, (cx, cy) ∈ drawImageTrace x y width height →
      cx < SSD1306_W ∧ cy < SSD1306_H) := by
  refine ⟨?_, ?_, ?_⟩
  · intro k hk b hb s
    have hb32 : b < 4294967296 := lt_trans hb (by norm_num)
    refine ⟨?_, ?_, ?_, ?_, ?_, ?_, ?_⟩
    · cases s with
      | true =>
        simp only [applyMode, if_true]
        rw [testBit_set]
        simp
      | false =>
        simp only [applyMode, Bool.false_eq_true, if_false, Nat.or_zero]
        rw [testBit_clear _ _ _ hb32]
        simp
    · cases s with
      | true =>
        simp only [applyMode, if_true, Nat.or_zero]
        rw [testBit_clear _ _ _ hb32]
        simp
      | false =>
        simp only [applyMode, Bool.false_eq_true, if_false]
        rw [testBit_set]
        simp
    · cases s with
      | true =>
        simp only [applyMode, if_true]
        rw [testBit_and255 _ _ hk]
        simp
      | false =>
        simp only [applyMode, Bool.false_eq_true, if_false]
        rw [testBit_clear _ _ _ hb32]
        simp
    · cases s with
      | true =>
        simp only [applyMode, if_true]
        rw [testBit_set]
        simp
      | false =>
        simp only [applyMode, Bool.false_eq_true, if_false, Nat.or_zero]
        simp
    · cases s with
      | true =>
        simp only [applyMode, if_true, Nat.or_zero]
        simp
      | false =>
        simp only [applyMode, Bool.false_eq_true, if_false]
        rw [testBit_set]
        simp
    · cases s with
      | true =>
        simp only [applyMode, if_true]
        rw [testBit_clear _ _ _ hb32]
        simp
      | false =>
        simp only [applyMode, Bool.false_eq_true, if_false]
        rw [testBit_and255 _ _ hk]
        simp
    · intro mode j hmode hj hjk
      have hkj : ¬ (k = j) := fun h => hjk h.symm
      interval_cases mode <;> cases s <;>
        simp only [applyMode, if_true, if_false, Bool.false_eq_true,
          Nat.or_zero] <;>
        first
          | (rw [testBit_set, testBit_clear _ _ _ hb32]; simp [hkj])
          | (rw [testBit_set]; simp [hkj])
          | (rw [testBit_clear _ _ _ hb32]; simp [hkj])
          | (rw [testBit_and255 _ _ hj])
  · intro x y input width height mode buf
    exact imgLineLoop_clip (by omega) (by omega)
  · intro x y width height cx cy h
    exact traceLineLoop_bounds h

/-- Witness for C2: mode 2 keeps a set destination bit where the source bit
is 1, and a blit at y = 60 of height 10 is clipped to 4 rows. -/
theorem claim_C2_witness :
    (applyMode 2 (1 <<< 3) true 255).testBit 3 = (true && (255 : ℕ).testBit 3) ∧
      ssd1306_drawImage 0 60 (fun _ => 255) 8 10 0 zeroBuf =
        ssd1306_drawImage 0 60 (fun _ => 255) 8 (min 10 (SSD1306_H - 60)) 0
          zeroBuf :=
  ⟨(claim_C2.1 3 (by decide) 255 (by decide) true).2.2.1,
    claim_C2.2.1 0 60 (fun _ => 255) 8 10 0 zeroBuf⟩

/-! ## Helper lemmas: refresh loop -/

lemma refreshLoop_eq (buf : Buf) :
    ∀ n fuel i, n ≤ fuel → i + SSD1306_PSZ * n = bufferSize →
      refreshLoop buf fuel i =
        (List.range n).map
          (fun k => ssd1306_dataPacket buf (i + SSD1306_PSZ * k) SSD1306_PSZ) := by
  have hP : SSD1306_PSZ = 32 := rfl
  have hB : bufferSize = 1024 := rfl
  intro n
  induction n with
  | zero =>
    intro fuel i _ hi
    have hge : ¬ i < bufferSize := by rw [hP] at hi; omega
    cases fuel with
    | zero => simp [refreshLoop]
    | succ f => simp [refreshLoop, hge]
  | succ n ih =>
    intro fuel i hf hi
    have hlt : i < bufferSize := by rw [hP] at hi; rw [hB] at hi ⊢; omega
    cases fuel with
    | zero => exact absurd hf (by omega)
    | succ f =>
      have hrec := ih f (i + SSD1306_PSZ) (by omega)
        (by rw [hP] at hi ⊢; omega)
      simp only [refreshLoop, hlt, if_true, hrec, List.range_succ_eq_map,
        List.map_cons, List.map_map, Nat.mul_zero, Nat.add_zero]
      congr 1
      apply List.map_congr_left
      intro k _
      simp only [Function.comp_apply]
      congr 1
      simp only [Nat.succ_eq_add_one]
      ring

lemma join_chunks (f : ℕ → ℕ) (c : ℕ) :
    ∀ n i, (((List.range n).map
        (fun k => (List.range c).map (fun j => f (i + c * k + j)))).flatten) =
      (List.range (c * n)).map (fun k => f (i + k)) := by
  intro n
  induction n with
  | zero => intro i; simp
  | succ n ih =>
    intro i
    rw [List.range_succ, List.map_append, List.flatten_append,
      show c * (n + 1) = c * n + c by ring, List.range_add, List.map_append,
      ih i]
    simp only [List.map_cons, List.map_nil, List.flatten_cons,
      List.flatten_nil, List.append_nil, List.map_map]
    congr 1
    apply List.map_congr_left
    intro j _
    simp only [Function.comp_apply]
    congr 1
    omega

/-! ## Claim C1 -/

/-- C1 (amended): against a mock transport, `ssd1306_refresh` sends exactly
six addressing command bytes (the column-address command with its two
arguments, then the page-address command with its two arguments) — not four —
followed by `ceil(bufferSize / maxPacket) = 32` data packets, each a `0x40`
marker plus exactly `SSD1306_PSZ` payload bytes (`bufferSize` is a multiple
of `SSD1306_PSZ` at the compiled 128x64 geometry, so the final packet is full
and no read past the buffer occurs), whose concatenated payload is the full
framebuffer in original byte order. -/
theorem claim_C1 :
    ∀ buf : Buf,
      (ssd1306_refresh buf).1.length = 6 ∧
      (ssd1306_refresh buf).2.length =
        (bufferSize + SSD1306_PSZ - 1) / SSD1306_PSZ ∧
      (∀ pkt ∈ (ssd1306_refresh buf).2,
        pkt.length = SSD1306_PSZ + 1 ∧ pkt.head? = some 0x40) ∧
      ((ssd1306_refresh buf).2.map List.tail).flatten =
        (List.range bufferSize).map buf := by
  intro buf
  have hloop : (ssd1306_refresh buf).2 =
      (List.range 32).map
        (fun k => ssd1306_dataPacket buf (0 + SSD1306_PSZ * k) SSD1306_PSZ) :=
    refreshLoop_eq buf 32 bufferSize 0 (by decide) (by decide)
  refine ⟨rfl, ?_, ?_, ?_⟩
  · rw [hloop]
    simp only [List.length_map, List.length_range]
    decide
  · intro pkt hpkt
    rw [hloop] at hpkt
    simp only [List.mem_map, List.mem_range] at hpkt
    obtain ⟨k, _, rfl⟩ := hpkt
    constructor
    · simp [ssd1306_dataPacket]
    · rfl
  · rw [hloop]
    have hm : min SSD1306_PSZ SSD1306_PSZ = SSD1306_PSZ := min_self _
    simp only [List.map_map]
    have : (List.tail ∘ fun k =>
        ssd1306_dataPacket buf (0 + SSD1306_PSZ * k) SSD1306_PSZ) =
        fun k => (List.range SSD1306_PSZ).map
          (fun j => buf (0 + SSD1306_PSZ * k + j)) := by
      funext k
      simp [ssd1306_dataPacket, hm]
    rw [this, join_chunks buf SSD1306_PSZ 32 0]
    have hcb : SSD1306_PSZ * 32 = bufferSize := by decide
    rw [hcb]
    simp

/-- Witness for C1 on the zero buffer: six commands, one packet inspected. -/
theorem claim_C1_witness :
    (ssd1306_refresh zeroBuf).1.length = 6 ∧
      ((ssd1306_refresh zeroBuf).2.map List.tail).flatten =
        (List.range bufferSize).map zeroBuf :=
  ⟨(claim_C1 zeroBuf).1, (claim_C1 zeroBuf).2.2.2⟩

/-- Counterexample to C1 as stated: the refresh sequence contains six
addressing command transactions, not four. -/
theorem claim_C1_counterexample :
    (ssd1306_refresh zeroBuf).1.length = 6 ∧
      ¬ (ssd1306_refresh zeroBuf).1.length = 4 := by
  constructor
  · rfl
  · decide

/-! ## Helper lemmas: pixel-level view of `ssd1306_drawPixel` and the
horizontal-line loop -/

lemma drawPixel_apply (x y : ℕ) (c : Bool) (buf : Buf) (a : ℕ) :
    ssd1306_drawPixel x y c buf a =
      if x < SSD1306_W ∧ y < SSD1306_H ∧ a = pixelAddr x y then
        (if c then buf a ||| (1 <<< (y % 8))
         else buf a &&& (4294967295 ^^^ (1 <<< (y % 8))))
      else buf a := by
  by_cases hx : SSD1306_W ≤ x
  · have hx' : ¬ x < SSD1306_W := not_lt.mpr hx
    simp [ssd1306_drawPixel, hx, hx']
  · by_cases hy : SSD1306_H ≤ y
    · have hy' : ¬ y < SSD1306_H := not_lt.mpr hy
      simp [ssd1306_drawPixel, hx, hy, hy']
    · by_cases ha : a = pixelAddr x y
      · cases c <;>
          simp [ssd1306_drawPixel, hx, hy, updByte_apply, ha, not_le.mp hx,
            not_le.mp hy]
      · cases c <;>
          simp [ssd1306_drawPixel, hx, hy, updByte_apply, ha]

lemma pixelAddr_inj_left {x x' y : ℕ} (h : pixelAddr x y = pixelAddr x' y) :
    x = x' := by
  simp only [pixelAddr] at h
  omega

lemma hlineLoop_apply {y : ℕ} {color : Bool} :
    ∀ (w x : ℕ) (buf : Buf) (a : ℕ), x + w ≤ 4294967295 →
      hlineLoop y color w x buf a =
        if ∃ k, k < w ∧ x + k < SSD1306_W ∧ y < SSD1306_H ∧
            a = pixelAddr (x + k) y then
          (if color then buf a ||| (1 <<< (y % 8))
           else buf a &&& (4294967295 ^^^ (1 <<< (y % 8))))
        else buf a := by
  intro w
  induction w with
  | zero =>
    intro x buf a _
    simp only [hlineLoop]
    rw [if_neg]
    rintro ⟨k, hk, _⟩
    omega
  | succ n ih =>
    intro x buf a hb
    have hx1 : (x + 1) % 4294967296 = x + 1 := Nat.mod_eq_of_lt (by omega)
    simp only [hlineLoop, hx1]
    rw [ih (x + 1) _ a (by omega)]
    by_cases hfirst : x < SSD1306_W ∧ y < SSD1306_H ∧ a = pixelAddr x y
    · obtain ⟨hW, hy, ha⟩ := hfirst
      have hnot : ¬ ∃ k, k < n ∧ (x + 1) + k < SSD1306_W ∧ y < SSD1306_H ∧
          a = pixelAddr ((x + 1) + k) y := by
        rintro ⟨k, _, _, _, hak⟩
        have := pixelAddr_inj_left (ha ▸ hak : pixelAddr x y = _)
        omega
      have hex : ∃ k, k < n + 1 ∧ x + k < SSD1306_W ∧ y < SSD1306_H ∧
          a = pixelAddr (x + k) y :=
        ⟨0, by omega, by omega, hy, by rw [Nat.add_zero]; exact ha⟩
      rw [if_neg hnot, if_pos hex, drawPixel_apply, if_pos ⟨hW, hy, ha⟩]
    · have hbuf' : ssd1306_drawPixel x y color buf a = buf a := by
        rw [drawPixel_apply, if_neg hfirst]
      rw [hbuf']
      have hiff : (∃ k, k < n ∧ (x + 1) + k < SSD1306_W ∧ y < SSD1306_H ∧
          a = pixelAddr ((x + 1) + k) y) ↔
          (∃ k, k < n + 1 ∧ x + k < SSD1306_W ∧ y < SSD1306_H ∧
            a = pixelAddr (x + k) y) := by
        constructor
        · rintro ⟨k, hk, hw, hy, hak⟩
          exact ⟨k + 1, by omega, by omega, hy,
            by rw [show x + (k + 1) = x + 1 + k by omega]; exact hak⟩
        · rintro ⟨k, hk, hw, hy, hak⟩
          cases k with
          | zero =>
            exact absurd ⟨by omega, hy, by rw [Nat.add_zero] at hak; exact hak⟩
              hfirst
          | succ m =>
            exact ⟨m, by omega, by omega, hy,
              by rw [show x + 1 + m = x + (m + 1) by omega]; exact hak⟩
      rw [if_congr hiff rfl rfl]

/-! ## Claim C9 -/

/-- C9: `ssd1306_drawFastHLine` with `w = 0` is not uniformly a no-op: for
`x = 0` and `y < H` the `uint32` computation `x + w - 1` wraps, the clamp
sets the width to `W`, and every one of the `W` pixels of row `y` gets the
given color; for `1 ≤ x < W` and `y < H` the call leaves the framebuffer
unchanged. -/
theorem claim_C9 :
    (∀ y (c : Bool) (buf : Buf), ValidBuf buf → y < SSD1306_H →
      ∀ cx, cx < SSD1306_W →
        ((ssd1306_drawFastHLine 0 y 0 c buf) (pixelAddr cx y)).testBit (y % 8)
          = c) ∧
    (∀ x y (c : Bool) (buf : Buf), 1 ≤ x → x < SSD1306_W → y < SSD1306_H →
      ssd1306_drawFastHLine x y 0 c buf = buf) := by
  constructor
  · intro y c buf hv hy cx hcx
    have hguard : ¬ (SSD1306_W ≤ 0 ∨ SSD1306_H ≤ y) := by
      push_neg
      exact ⟨by decide, hy⟩
    have hwrap : SSD1306_W ≤ (0 + 0 + 4294967295) % 4294967296 := by decide
    simp only [ssd1306_drawFastHLine, hguard, if_false, hwrap, if_true,
      Nat.sub_zero]
    rw [hlineLoop_apply SSD1306_W 0 buf (pixelAddr cx y) (by decide)]
    rw [if_pos ⟨cx, hcx, by omega, hy, by rw [Nat.zero_add]⟩]
    have hb32 : buf (pixelAddr cx y) < 4294967296 :=
      lt_trans (hv (pixelAddr cx y)) (by norm_num)
    cases c with
    | true =>
      rw [if_pos rfl, testBit_set]
      simp
    | false =>
      rw [if_neg (by simp), testBit_clear _ _ _ hb32]
      simp
  · intro x y c buf hx1 hxW hy
    have hguard : ¬ (SSD1306_W ≤ x ∨ SSD1306_H ≤ y) := by
      push_neg
      exact ⟨hxW, hy⟩
    have hnowrap : (x + 0 + 4294967295) % 4294967296 = x - 1 := by
      have hW : SSD1306_W = 128 := rfl
      omega
    have hclamp : ¬ SSD1306_W ≤ (x + 0 + 4294967295) % 4294967296 := by
      rw [hnowrap]
      have hW : SSD1306_W = 128 := rfl
      omega
    simp only [ssd1306_drawFastHLine, hguard, if_false, hclamp]
    rfl

/-- Witness for C9: after `drawFastHLine(0, 3, 0, 1)` pixel (5,3) is lit, and
`drawFastHLine(1, 3, 0, 1)` leaves the zero buffer unchanged. -/
theorem claim_C9_witness :
    ((ssd1306_drawFastHLine 0 3 0 true zeroBuf) (pixelAddr 5 3)).testBit (3 % 8)
        = true ∧
      ssd1306_drawFastHLine 1 3 0 true zeroBuf = zeroBuf :=
  ⟨claim_C9.1 3 true zeroBuf (fun _ => Nat.zero_lt_succ 255) (by decide) 5
      (by decide),
    claim_C9.2 1 3 true zeroBuf (by decide) (by decide) (by decide)⟩

/-! ## Claim C7 -/

/-- Counterexample to C7 as stated: starting at column 248, the next glyph
(cursor 256 > 128) would exceed the display width, yet `ssd1306_drawstr`
emits a second character — the `uint8_t` cursor wraps to 0 and drawing
continues there instead of dropping the trailing characters. -/
theorem claim_C7_counterexample :
    drawstrCalls 248 [65, 66] = [(248, 65), (0, 66)] ∧
      ¬ (drawstrCalls 248 [65, 66]).length = 1 := by decide

/-- C7 (amended): `ssd1306_drawstr` advances the cursor by 8 columns per
character and — provided the starting column is ≤ 247, so the `uint8_t`
cursor does not wrap — stops emitting further characters exactly when the
advanced cursor exceeds 120, i.e. when the next glyph would cross column
`W = 128`; trailing characters are dropped, not wrapped.  In particular
`drawString(120, 0, "HELLO", 1)` draws only the glyph `H` at x = 120. -/
theorem claim_C7 :
    (∀ x c rest, x ≤ 247 →
      drawstrCalls x (c :: rest) =
        if c = 0 then []
        else (x, c) :: (if x + 8 > 120 then [] else drawstrCalls (x + 8) rest)) ∧
    (∀ x', 120 < x' ↔ SSD1306_W < x' + 8) ∧
    (∀ (font : ℕ → ℕ) (buf : Buf),
      ssd1306_drawstr font 120 0 helloStr true buf =
        ssd1306_drawchar font 120 0 72 true buf) ∧
    drawstrCalls 120 helloStr = [(120, 72)] := by
  refine ⟨?_, ?_, ?_, by decide⟩
  · intro x c rest hx
    simp only [drawstrCalls]
    rw [Nat.mod_eq_of_lt (by omega)]
  · intro x'
    have hW : SSD1306_W = 128 := rfl
    omega
  · intro font buf
    simp [ssd1306_drawstr, helloStr]

/-- Witness for C7: one step of the call-trace equation at column 0. -/
theorem claim_C7_witness :
    drawstrCalls 0 (72 :: [69]) =
      (if (72 : ℕ) = 0 then []
       else (0, 72) :: (if 0 + 8 > 120 then [] else drawstrCalls (0 + 8) [69])) :=
  claim_C7.1 0 72 [69] (by decide)

/-! ## Helper lemmas: the two line loops coincide -/

lemma lineLoop_eq_midpointLoop (steep : Bool) (x1 deltax deltay ystep : ℤ)
    (color : Bool) :
    ∀ (fuel : ℕ) (x y error : ℤ) (buf : Buf),
      lineLoop steep x1 deltax deltay ystep color fuel x y error buf =
        midpointLoop steep x1 deltax deltay ystep color fuel x y error buf := by
  intro fuel
  induction fuel with
  | zero => intro x y e buf; rfl
  | succ n ih =>
    intro x y e buf
    simp only [lineLoop, midpointLoop]
    split_ifs <;> first | apply ih | rfl

/-! ## Claim C5 -/

/-- Counterexample to C5 as stated: for the endpoints (0,0)-(−1,5) the
`uint16_t` temporary in `gfx_swap` turns `x1 = −1` into 65535 during the
steep swap, and `ssd1306_drawLine` lights pixel (5,5), which the classic
midpoint algorithm (whose line stays on rows 0 and −1) never touches. -/
theorem claim_C5_counterexample :
    ((ssd1306_drawLine 0 0 (-1) 5 true zeroBuf) (pixelAddr 5 5)).testBit (5 % 8)
        = true ∧
      ((midpointLine 0 0 (-1) 5 true zeroBuf) (pixelAddr 5 5)).testBit (5 % 8)
        = false := by decide

/-- C5 (amended): for all endpoints whose coordinates lie in `[0, 65536)` —
so the `uint16_t` temporary in `gfx_swap` moves values faithfully —
`ssd1306_drawLine` draws exactly the pixels of the classic midpoint
(Bresenham) algorithm, degenerate cases included; outside that range the
truncating swap makes the pixel sets differ. -/
theorem claim_C5 :
    ∀ x0 y0 x1 y1 : ℤ, 0 ≤ x0 → x0 < 65536 → 0 ≤ y0 → y0 < 65536 →
      0 ≤ x1 → x1 < 65536 → 0 ≤ y1 → y1 < 65536 →
      ∀ (c : Bool) (buf : Buf),
        ssd1306_drawLine x0 y0 x1 y1 c buf = midpointLine x0 y0 x1 y1 c buf := by
  intro x0 y0 x1 y1 hx0 hx0' hy0 hy0' hx1 hx1' hy1 hy1' c buf
  have m0 : x0.emod 65536 = x0 := Int.emod_eq_of_lt hx0 hx0'
  have m1 : y0.emod 65536 = y0 := Int.emod_eq_of_lt hy0 hy0'
  have m2 : x1.emod 65536 = x1 := Int.emod_eq_of_lt hx1 hx1'
  have m3 : y1.emod 65536 = y1 := Int.emod_eq_of_lt hy1 hy1'
  simp only [ssd1306_drawLine, midpointLine, gfx_swap,
    lineLoop_eq_midpointLoop]
  by_cases hs : gfx_abs (y1 - y0) > gfx_abs (x1 - x0)
  · simp only [hs, if_true, m0, m1, m2, m3]
  · simp only [hs, if_false, m0, m1, m2, m3]

/-- Witness for C5 at the in-range endpoints (0,0)-(3,1). -/
theorem claim_C5_witness :
    ssd1306_drawLine 0 0 3 1 true zeroBuf = midpointLine 0 0 3 1 true zeroBuf :=
  claim_C5 0 0 3 1 (by decide) (by decide) (by decide) (by decide) (by decide)
    (by decide) (by decide) (by decide) true zeroBuf

/-! ## Helper lemmas: circle step analysis and idempotent plotting -/

lemma drawPixel_idem (x y : ℕ) (c : Bool) (buf : Buf) :
    ssd1306_drawPixel x y c (ssd1306_drawPixel x y c buf) =
      ssd1306_drawPixel x y c buf := by
  funext a
  rw [drawPixel_apply x y c (ssd1306_drawPixel x y c buf) a,
    drawPixel_apply x y c buf a]
  by_cases h : x < SSD1306_W ∧ y < SSD1306_H ∧ a = pixelAddr x y
  · rw [if_pos h, if_pos h]
    cases c with
    | true =>
      simp only [if_true]
      rw [Nat.or_assoc, Nat.or_self]
    | false =>
      simp only [Bool.false_eq_true, if_false]
      rw [Nat.and_assoc, Nat.and_self]
  · rw [if_neg h, if_neg h]

lemma drawPixelZ_idem (x y : ℤ) (c : Bool) (buf : Buf) :
    drawPixelZ x y c (drawPixelZ x y c buf) = drawPixelZ x y c buf :=
  drawPixel_idem _ _ _ _

lemma hline_one (x y : ℕ) (c : Bool) (buf : Buf) (hx : x < 4294967296) :
    ssd1306_drawFastHLine x y 1 c buf = ssd1306_drawPixel x y c buf := by
  by_cases hg : SSD1306_W ≤ x ∨ SSD1306_H ≤ y
  · rw [ssd1306_drawFastHLine, if_pos hg]
    rcases hg with h | h
    · rw [ssd1306_drawPixel, if_pos h]
    · rw [ssd1306_drawPixel]
      by_cases h' : SSD1306_W ≤ x
      · rw [if_pos h']
      · rw [if_neg h', if_pos h]
  · rw [ssd1306_drawFastHLine, if_neg hg]
    push_neg at hg
    have hmod : (x + 1 + 4294967295) % 4294967296 = x := by omega
    have hW : SSD1306_W = 128 := rfl
    have hcl : ¬ SSD1306_W ≤ (x + 1 + 4294967295) % 4294967296 := by
      rw [hmod]
      exact not_le.mpr hg.1
    rw [if_neg hcl]
    rfl

/-- Case analysis of one circle `do`-body pass: from a loop state with
`y_pos ≥ 0` and `x_pos ≤ 0`, either `x_pos` is incremented, or only `y_pos`
moves — and then the old error satisfied `err ≤ x_pos` and the error grows by
at least 3. -/
lemma circleStep_progress (s : CircleState) (hy0 : 0 ≤ s.y) (hx0 : s.x ≤ 0) :
    0 ≤ (circleStep s).y ∧ s.x ≤ (circleStep s).x ∧
      ((circleStep s).x = s.x + 1 ∨
        ((circleStep s).x = s.x ∧ s.e ≤ s.x ∧ s.e + 3 ≤ (circleStep s).e)) := by
  simp only [circleStep]
  split_ifs <;> omega

/-- Fuel sufficiency for the circle do-while loop, by well-founded descent on
the lexicographic measure `((1 - x_pos)⁺, (x_pos - err + 3)⁺)`: every pass
increments `x_pos`, or keeps it and grows `err` by at least 3 while
`err ≤ x_pos ≤ 0` must hold for the pass not to increment `x_pos`. -/
lemma toU32_lt (z : ℤ) : toU32 z < 4294967296 := by
  simp only [toU32]
  have h1 : 0 ≤ z.emod 4294967296 := Int.emod_nonneg z (by norm_num)
  have h2 : z.emod 4294967296 < 4294967296 :=
    Int.emod_lt_of_pos z (by norm_num)
  omega

lemma circleLoop_isSome (cx cy : ℤ) (color : Bool) :
    ∀ (a : ℕ), ∀ (b : ℕ), ∀ (s : CircleState) (buf : Buf), 0 ≤ s.y →
      s.x ≤ 0 → (1 - s.x).toNat ≤ a → (s.x - s.e + 3).toNat ≤ b →
      ∃ n, (circleLoop cx cy color n s buf).isSome := by
  intro a
  induction a using Nat.strong_induction_on with
  | _ a iha =>
    intro b
    induction b using Nat.strong_induction_on with
    | _ b ihb =>
      intro s buf hy hx ha hb
      by_cases hexit : (circleStep s).x ≤ 0
      · obtain ⟨hy', hmono, hcase⟩ := circleStep_progress s hy hx
        rcases hcase with hxi | ⟨hxe, hee, hei⟩
        · obtain ⟨n, hn⟩ := iha ((1 - (circleStep s).x).toNat) (by omega)
            (((circleStep s).x - (circleStep s).e + 3).toNat) (circleStep s)
            (circlePlot4 cx cy color s buf) hy' hexit le_rfl le_rfl
          refine ⟨n + 1, ?_⟩
          simp only [circleLoop, hexit, if_true]
          exact hn
        · obtain ⟨n, hn⟩ := ihb (((circleStep s).x - (circleStep s).e + 3).toNat)
            (by omega) (circleStep s) (circlePlot4 cx cy color s buf) hy' hexit
            (by omega) le_rfl
          refine ⟨n + 1, ?_⟩
          simp only [circleLoop, hexit, if_true]
          exact hn
      · refine ⟨1, ?_⟩
        simp [circleLoop, hexit]

/-- Fuel sufficiency carries over between the outline and filled circle
loops: they share the state recursion and differ only in what they plot. -/
lemma fillCircleLoop_isSome_eq (cx cy cx' cy' : ℤ) (c c' : Bool) :
    ∀ (n : ℕ) (s : CircleState) (buf buf' : Buf),
      (circleLoop cx cy c n s buf).isSome =
        (fillCircleLoop cx' cy' c' n s buf').isSome := by
  intro n
  induction n with
  | zero => intro s buf buf'; rfl
  | succ m ih =>
    intro s buf buf'
    simp only [circleLoop, fillCircleLoop]
    by_cases hexit : (circleStep s).x ≤ 0
    · simp only [hexit, if_true]
      exact ih _ _ _
    · simp only [hexit, if_false, Option.isSome_some]

/-! ## Claim C6 -/

/-- C6: for every radius ≥ 0 the do-while loops of `ssd1306_drawCircle` and
`ssd1306_fillCircle` terminate (some finite fuel makes them finish through
their own exit condition), and a call with radius 0 plots exactly the single
center pixel without looping forever or underflowing. -/
theorem claim_C6 :
    (∀ (radius cx cy : ℤ) (c : Bool) (buf : Buf), 0 ≤ radius →
      (∃ n, (ssd1306_drawCircle cx cy radius c n buf).isSome) ∧
      (∃ n, (ssd1306_fillCircle cx cy radius c n buf).isSome)) ∧
    (∀ (cx cy : ℤ) (c : Bool) (buf : Buf),
      ssd1306_drawCircle cx cy 0 c 1 buf = some (drawPixelZ cx cy c buf) ∧
      ssd1306_fillCircle cx cy 0 c 1 buf = some (drawPixelZ cx cy c buf)) := by
  constructor
  · intro radius cx cy c buf hr
    have hdraw : ∃ n, (circleLoop cx cy c n ⟨-radius, 0, 2 - 2 * radius⟩ buf).isSome :=
      circleLoop_isSome cx cy c (1 + radius).toNat (3 * radius + 1).toNat
        ⟨-radius, 0, 2 - 2 * radius⟩ buf (le_refl 0)
        (show -radius ≤ 0 by omega)
        (show (1 - -radius).toNat ≤ (1 + radius).toNat by omega)
        (show (-radius - (2 - 2 * radius) + 3).toNat ≤ (3 * radius + 1).toNat
          by omega)
    refine ⟨hdraw, ?_⟩
    obtain ⟨n, hn⟩ := hdraw
    refine ⟨n, ?_⟩
    rw [ssd1306_fillCircle, ← fillCircleLoop_isSome_eq cx cy cx cy c c n _ buf buf]
    exact hn
  · intro cx cy c buf
    have hstep : (circleStep ⟨0, 0, 2⟩).x = 1 := by
      simp only [circleStep]
      norm_num
    have hplot : circlePlot4 cx cy c ⟨0, 0, 2⟩ buf = drawPixelZ cx cy c buf := by
      simp only [circlePlot4, sub_zero, add_zero, drawPixelZ_idem]
    constructor
    · rw [ssd1306_drawCircle, show (-(0 : ℤ)) = 0 by norm_num,
        show (2 - 2 * (0 : ℤ)) = 2 by norm_num]
      simp only [circleLoop, hstep]
      norm_num
      exact hplot
    · rw [ssd1306_fillCircle, show (-(0 : ℤ)) = 0 by norm_num,
        show (2 - 2 * (0 : ℤ)) = 2 by norm_num]
      simp only [fillCircleLoop, hstep]
      norm_num
      have hfill : fillCirclePlot cx cy c ⟨0, 0, 2⟩ buf = drawPixelZ cx cy c buf := by
        simp only [fillCirclePlot, hplot, sub_zero, add_zero, neg_zero,
          mul_zero, zero_add]
        have h1 : toU32 1 = 1 := by decide
        rw [hlineZ, hlineZ, h1, hline_one _ _ _ _ (toU32_lt cx),
          hline_one _ _ _ _ (toU32_lt cx)]
        rw [show ssd1306_drawPixel (toU32 cx) (toU32 cy) c = drawPixelZ cx cy c
          from rfl]
        rw [drawPixelZ_idem, drawPixelZ_idem]
      exact hfill

/-- Witness for C6 at radius 2. -/
theorem claim_C6_witness :
    (∃ n, (ssd1306_drawCircle 10 10 2 true n zeroBuf).isSome) ∧
      ∃ n, (ssd1306_fillCircle 10 10 2 true n zeroBuf).isSome :=
  claim_C6.1 2 10 10 true zeroBuf (by decide)
